import Mathlib

/-!
Verification development for the anthropic-rs payload model and streaming
protocol.  The Rust source (src/anthropic/src/types.rs) declares the data
types together with their serde serialization attributes and their
derive_builder builders; we embed those types and the serialization
behaviour the derives generate, and we model the streaming aggregator and
the completion stream, which the specification describes but whose code is
outside the provided source tree, directly from the specification text.
-/

set_option maxHeartbeats 1000000

namespace Anthropic

/-- Minimal JSON value model.  Integers (Rust usize fields) are carried as
Nat; Rust f64 fields are carried opaquely as Rat, since no claim performs
floating-point arithmetic on them. -/
inductive Json where
  | null : Json
  | bool : Bool → Json
  | num : Nat → Json
  | float : Rat → Json
  | str : String → Json
  | arr : List Json → Json
  | obj : List (String × Json) → Json
deriving Repr

/-- Lookup of a key in a JSON object field list, first match wins. -/
def jLookup : List (String × Json) → String → Option Json
  | [], _ => none
  | (k, v) :: rest, key => if k = key then some v else jLookup rest key

/-- Whether a serialized JSON object carries the given key. -/
def hasKey (j : Json) (key : String) : Bool :=
  match j with
  | .obj fields => (jLookup fields key).isSome
  | _ => false

/-- Role enumeration from types.rs (derive Default, with the default
attribute on the User variant; serde rename_all snake_case). -/
inductive Role where
  | user : Role
  | assistant : Role
deriving DecidableEq, Repr

/-- Embedding of the Rust derived Default instance for Role: the default
attribute sits on the User variant. -/
def roleDefault : Role := Role.user

/-- Serde serialization of Role (rename_all snake_case). -/
def roleToJson : Role → Json
  | .user => .str "user"
  | .assistant => .str "assistant"

/-- Serde deserialization of Role. -/
def roleFromJson : Json → Option Role
  | .str s =>
    if s = "user" then some .user
    else if s = "assistant" then some .assistant
    else none
  | _ => none

/-- StopReason enumeration from types.rs (serde rename_all snake_case). -/
inductive StopReason where
  | endTurn : StopReason
  | maxTokens : StopReason
  | stopSequence : StopReason
deriving DecidableEq, Repr

/-- Serde serialization of StopReason. -/
def stopReasonToJson : StopReason → Json
  | .endTurn => .str "end_turn"
  | .maxTokens => .str "max_tokens"
  | .stopSequence => .str "stop_sequence"

/-- Serde deserialization of StopReason. -/
def stopReasonFromJson : Json → Option StopReason
  | .str s =>
    if s = "end_turn" then some .endTurn
    else if s = "max_tokens" then some .maxTokens
    else if s = "stop_sequence" then some .stopSequence
    else none
  | _ => none

/-- ContentBlock from types.rs: internally tagged enum, tag field named
type, variants renamed to snake_case. -/
inductive ContentBlock where
  | text : String → ContentBlock
  | image : String → String → String → ContentBlock
deriving DecidableEq, Repr

/-- Serde serialization of ContentBlock (tag field first, then the variant
fields in declaration order). -/
def contentBlockToJson : ContentBlock → Json
  | .text t => .obj [("type", .str "text"), ("text", .str t)]
  | .image source mediaType data =>
    .obj [("type", .str "image"), ("source", .str source),
          ("media_type", .str mediaType), ("data", .str data)]

/-- Serde deserialization of ContentBlock: dispatch on the type tag, then
require the fields of the matching variant. -/
def contentBlockFromJson : Json → Option ContentBlock
  | .obj fields =>
    match jLookup fields "type" with
    | some (.str tag) =>
      if tag = "text" then
        match jLookup fields "text" with
        | some (.str t) => some (.text t)
        | _ => none
      else if tag = "image" then
        match jLookup fields "source", jLookup fields "media_type",
              jLookup fields "data" with
        | some (.str s), some (.str m), some (.str d) => some (.image s m d)
        | _, _, _ => none
      else none
    | _ => none
  | _ => none

/-- Serialization of a list of content blocks. -/
def contentBlocksToJson (blocks : List ContentBlock) : Json :=
  .arr (blocks.map contentBlockToJson)

/-- Deserialization of a list of content blocks; any bad element fails the
whole list. -/
def contentBlockListFromJson : List Json → Option (List ContentBlock)
  | [] => some []
  | j :: rest => do
    let b ← contentBlockFromJson j
    let bs ← contentBlockListFromJson rest
    pure (b :: bs)

/-- Deserialization of the JSON array of content blocks. -/
def contentBlocksFromJson : Json → Option (List ContentBlock)
  | .arr js => contentBlockListFromJson js
  | _ => none

/-- Message from types.rs: role plus ordered content blocks. -/
structure Message where
  role : Role
  content : List ContentBlock
deriving DecidableEq, Repr

/-- Serde serialization of Message, fields in declaration order. -/
def messageToJson (m : Message) : Json :=
  .obj [("role", roleToJson m.role), ("content", contentBlocksToJson m.content)]

/-- Serde deserialization of Message: both fields are required (Message has
no serde default attribute, so the Rust Default for Role is never applied
when the role key is missing). -/
def messageFromJson : Json → Option Message
  | .obj fields => do
    let rj ← jLookup fields "role"
    let r ← roleFromJson rj
    let cj ← jLookup fields "content"
    let c ← contentBlocksFromJson cj
    pure { role := r, content := c }
  | _ => none

/-- Usage counters from types.rs. -/
structure Usage where
  input_tokens : Nat
  output_tokens : Nat
deriving DecidableEq, Repr

/-- Serde serialization of Usage. -/
def usageToJson (u : Usage) : Json :=
  .obj [("input_tokens", .num u.input_tokens),
        ("output_tokens", .num u.output_tokens)]

/-- Serde deserialization of Usage. -/
def usageFromJson : Json → Option Usage
  | .obj fields =>
    match jLookup fields "input_tokens", jLookup fields "output_tokens" with
    | some (.num i), some (.num o) =>
      some { input_tokens := i, output_tokens := o }
    | _, _ => none
  | _ => none

/-- MessagesResponse from types.rs: the fully materialized Messages API
response.  The two Option fields carry no skip attribute, so a missing
value serializes as an explicit null. -/
structure MessagesResponse where
  id : String
  type : String
  role : Role
  content : List ContentBlock
  model : String
  stop_reason : Option StopReason
  stop_sequence : Option String
  usage : Usage
deriving DecidableEq, Repr

/-- Serde serialization of an optional StopReason without a skip attribute:
absent becomes null. -/
def optStopReasonToJson : Option StopReason → Json
  | none => .null
  | some r => stopReasonToJson r

/-- Serde serialization of an optional String without a skip attribute. -/
def optStringToJson : Option String → Json
  | none => .null
  | some s => .str s

/-- Serde deserialization of an optional StopReason field: a missing key or
an explicit null both give the absent value. -/
def optStopReasonFromJson : Option Json → Option (Option StopReason)
  | none => some none
  | some .null => some none
  | some j => (stopReasonFromJson j).map some

/-- Serde deserialization of an optional String field. -/
def optStringFromJson : Option Json → Option (Option String)
  | none => some none
  | some .null => some none
  | some (.str s) => some (some s)
  | some _ => none

/-- Serde serialization of MessagesResponse, fields in declaration order. -/
def messagesResponseToJson (r : MessagesResponse) : Json :=
  .obj [("id", .str r.id),
        ("type", .str r.type),
        ("role", roleToJson r.role),
        ("content", contentBlocksToJson r.content),
        ("model", .str r.model),
        ("stop_reason", optStopReasonToJson r.stop_reason),
        ("stop_sequence", optStringToJson r.stop_sequence),
        ("usage", usageToJson r.usage)]

/-- Serde deserialization of MessagesResponse: the six plain fields are
required, the two Option fields default to absent when missing. -/
def messagesResponseFromJson : Json → Option MessagesResponse
  | .obj fields => do
    let idj ← jLookup fields "id"
    let id ← match idj with | .str s => some s | _ => none
    let tyj ← jLookup fields "type"
    let ty ← match tyj with | .str s => some s | _ => none
    let rj ← jLookup fields "role"
    let r ← roleFromJson rj
    let cj ← jLookup fields "content"
    let c ← contentBlocksFromJson cj
    let mj ← jLookup fields "model"
    let mo ← match mj with | .str s => some s | _ => none
    let sr ← optStopReasonFromJson (jLookup fields "stop_reason")
    let ss ← optStringFromJson (jLookup fields "stop_sequence")
    let uj ← jLookup fields "usage"
    let u ← usageFromJson uj
    pure { id := id, type := ty, role := r, content := c, model := mo,
           stop_reason := sr, stop_sequence := ss, usage := u }
  | _ => none

/-- Modelled from the spec: DEFAULT_MODEL is a constant declared in the
crate root, outside the provided source tree; only its identity matters to
the claims, never its concrete text, so a placeholder value is used. -/
def DEFAULT_MODEL : String := "default-model"

/-- CompleteRequest from types.rs.  Note that its stop_sequences field is an
Option of a list and carries no skip_serializing_if attribute. -/
structure CompleteRequest where
  prompt : String
  model : String
  max_tokens_to_sample : Nat
  stop_sequences : Option (List String)
  stream : Bool
deriving DecidableEq, Repr

/-- Serde serialization of an optional string list without a skip
attribute: absent becomes an explicit null, present becomes an array. -/
def optStringListToJson : Option (List String) → Json
  | none => .null
  | some xs => .arr (xs.map .str)

/-- Serde serialization of CompleteRequest: every field is emitted, in
declaration order; no field of this struct has a skip attribute. -/
def completeRequestToJson (r : CompleteRequest) : Json :=
  .obj [("prompt", .str r.prompt),
        ("model", .str r.model),
        ("max_tokens_to_sample", .num r.max_tokens_to_sample),
        ("stop_sequences", optStringListToJson r.stop_sequences),
        ("stream", .bool r.stream)]

/-- MessagesRequest from types.rs.  The system and stop_sequences fields
carry skip_serializing_if is_empty attributes; temperature, top_p and top_k
carry skip_serializing_if is_none attributes. -/
structure MessagesRequest where
  messages : List Message
  system : String
  model : String
  max_tokens : Nat
  stop_sequences : List String
  stream : Bool
  temperature : Option Rat
  top_p : Option Rat
  top_k : Option Nat
deriving DecidableEq, Repr

/-- Serde serialization of MessagesRequest, fields in declaration order,
with the skip attributes of the source applied. -/
def messagesRequestToJson (r : MessagesRequest) : Json :=
  .obj ([("messages", .arr (r.messages.map messageToJson))]
    ++ (if r.system.isEmpty then [] else [("system", .str r.system)])
    ++ [("model", .str r.model),
        ("max_tokens", .num r.max_tokens)]
    ++ (if r.stop_sequences.isEmpty then []
        else [("stop_sequences", .arr (r.stop_sequences.map .str))])
    ++ [("stream", .bool r.stream)]
    ++ (match r.temperature with
        | none => [] | some t => [("temperature", .float t)])
    ++ (match r.top_p with
        | none => [] | some p => [("top_p", .float p)])
    ++ (match r.top_k with
        | none => [] | some k => [("top_k", .num k)]))

/-- Builder state generated by derive_builder for CompleteRequest: one
Option per field, all starting unset. -/
structure CompleteRequestBuilder where
  prompt : Option String := none
  model : Option String := none
  max_tokens_to_sample : Option Nat := none
  stop_sequences : Option (Option (List String)) := none
  stream : Option Bool := none
deriving DecidableEq, Repr

/-- AnthropicError.  The error enum lives in src/error.rs, outside the
provided source tree; modelled from the spec, section 7 taxonomy, plus the
builder error conversion declared by the derives in types.rs. -/
inductive AnthropicError where
  | transportFailure : AnthropicError
  | truncated : AnthropicError
  | malformedEvent : AnthropicError
  | protocolViolation : AnthropicError
  | remoteError : String → String → AnthropicError
  | uninitializedField : AnthropicError
deriving DecidableEq, Repr

/-- Build function generated by derive_builder for CompleteRequest: the
struct-level builder(default) attribute makes every unset field fall back
to its default (the field-level default expressions give model its
DEFAULT_MODEL fallback and stream its false fallback), so no field can be
reported uninitialized. -/
def CompleteRequestBuilder.build (b : CompleteRequestBuilder) :
    Except AnthropicError CompleteRequest :=
  .ok { prompt := b.prompt.getD ""
        model := b.model.getD DEFAULT_MODEL
        max_tokens_to_sample := b.max_tokens_to_sample.getD 0
        stop_sequences := b.stop_sequences.getD none
        stream := b.stream.getD false }

/-- Builder state generated by derive_builder for MessagesRequest. -/
structure MessagesRequestBuilder where
  messages : Option (List Message) := none
  system : Option String := none
  model : Option String := none
  max_tokens : Option Nat := none
  stop_sequences : Option (List String) := none
  stream : Option Bool := none
  temperature : Option (Option Rat) := none
  top_p : Option (Option Rat) := none
  top_k : Option (Option Nat) := none
deriving DecidableEq, Repr

/-- Build function generated by derive_builder for MessagesRequest; as for
CompleteRequest, every unset field falls back to a default. -/
def MessagesRequestBuilder.build (b : MessagesRequestBuilder) :
    Except AnthropicError MessagesRequest :=
  .ok { messages := b.messages.getD []
        system := b.system.getD ""
        model := b.model.getD DEFAULT_MODEL
        max_tokens := b.max_tokens.getD 0
        stop_sequences := b.stop_sequences.getD []
        stream := b.stream.getD false
        temperature := b.temperature.getD none
        top_p := b.top_p.getD none
        top_k := b.top_k.getD none }

/-- ContentBlockDelta from types.rs: internally tagged enum with the single
TextDelta variant. -/
inductive ContentBlockDelta where
  | textDelta : String → ContentBlockDelta
deriving DecidableEq, Repr

/-- Serde serialization of ContentBlockDelta. -/
def contentBlockDeltaToJson : ContentBlockDelta → Json
  | .textDelta t => .obj [("type", .str "text_delta"), ("text", .str t)]

/-- Serde deserialization of ContentBlockDelta. -/
def contentBlockDeltaFromJson : Json → Option ContentBlockDelta
  | .obj fields =>
    match jLookup fields "type" with
    | some (.str tag) =>
      if tag = "text_delta" then
        match jLookup fields "text" with
        | some (.str t) => some (.textDelta t)
        | _ => none
      else none
    | _ => none
  | _ => none

/-- MessageDeltaUsage from types.rs. -/
structure MessageDeltaUsage where
  output_tokens : Nat
deriving DecidableEq, Repr

/-- Serde serialization of MessageDeltaUsage. -/
def messageDeltaUsageToJson (u : MessageDeltaUsage) : Json :=
  .obj [("output_tokens", .num u.output_tokens)]

/-- Serde deserialization of MessageDeltaUsage. -/
def messageDeltaUsageFromJson : Json → Option MessageDeltaUsage
  | .obj fields =>
    match jLookup fields "output_tokens" with
    | some (.num n) => some { output_tokens := n }
    | _ => none
  | _ => none

/-- MessageDelta from types.rs: two Option fields without skip attributes. -/
structure MessageDelta where
  stop_reason : Option StopReason
  stop_sequence : Option String
deriving DecidableEq, Repr

/-- Serde serialization of MessageDelta. -/
def messageDeltaToJson (d : MessageDelta) : Json :=
  .obj [("stop_reason", optStopReasonToJson d.stop_reason),
        ("stop_sequence", optStringToJson d.stop_sequence)]

/-- Serde deserialization of MessageDelta: both fields are Option, so a
missing key defaults to absent. -/
def messageDeltaFromJson : Json → Option MessageDelta
  | .obj fields => do
    let sr ← optStopReasonFromJson (jLookup fields "stop_reason")
    let ss ← optStringFromJson (jLookup fields "stop_sequence")
    pure { stop_reason := sr, stop_sequence := ss }
  | _ => none

/-- MessagesStreamEvent from types.rs: internally tagged enum, tag field
named type, variants renamed to snake_case. -/
inductive MessagesStreamEvent where
  | messageStart : Message → MessagesStreamEvent
  | contentBlockStart : Nat → ContentBlock → MessagesStreamEvent
  | contentBlockDelta : Nat → ContentBlockDelta → MessagesStreamEvent
  | contentBlockStop : Nat → MessagesStreamEvent
  | messageDelta : MessageDelta → MessageDeltaUsage → MessagesStreamEvent
  | messageStop : MessagesStreamEvent
deriving DecidableEq, Repr

/-- Serde serialization of MessagesStreamEvent: the tag field first, then
the fields of the variant in declaration order. -/
def messagesStreamEventToJson : MessagesStreamEvent → Json
  | .messageStart m =>
    .obj [("type", .str "message_start"), ("message", messageToJson m)]
  | .contentBlockStart i b =>
    .obj [("type", .str "content_block_start"), ("index", .num i),
          ("content_block", contentBlockToJson b)]
  | .contentBlockDelta i d =>
    .obj [("type", .str "content_block_delta"), ("index", .num i),
          ("delta", contentBlockDeltaToJson d)]
  | .contentBlockStop i =>
    .obj [("type", .str "content_block_stop"), ("index", .num i)]
  | .messageDelta d u =>
    .obj [("type", .str "message_delta"), ("delta", messageDeltaToJson d),
          ("usage", messageDeltaUsageToJson u)]
  | .messageStop =>
    .obj [("type", .str "message_stop")]

/-- The six discriminator tags the stream event enum accepts. -/
def knownEventTags : List String :=
  ["message_start", "content_block_start", "content_block_delta",
   "content_block_stop", "message_delta", "message_stop"]

/-- Serde deserialization of MessagesStreamEvent: dispatch on the type tag;
an unknown tag or a missing required field of the selected variant fails. -/
def messagesStreamEventFromJson : Json → Option MessagesStreamEvent
  | .obj fields =>
    match jLookup fields "type" with
    | some (.str tag) =>
      if tag = "message_start" then do
        let mj ← jLookup fields "message"
        let m ← messageFromJson mj
        pure (.messageStart m)
      else if tag = "content_block_start" then do
        let ij ← jLookup fields "index"
        let i ← match ij with | .num n => some n | _ => none
        let bj ← jLookup fields "content_block"
        let b ← contentBlockFromJson bj
        pure (.contentBlockStart i b)
      else if tag = "content_block_delta" then do
        let ij ← jLookup fields "index"
        let i ← match ij with | .num n => some n | _ => none
        let dj ← jLookup fields "delta"
        let d ← contentBlockDeltaFromJson dj
        pure (.contentBlockDelta i d)
      else if tag = "content_block_stop" then do
        let ij ← jLookup fields "index"
        let i ← match ij with | .num n => some n | _ => none
        pure (.contentBlockStop i)
      else if tag = "message_delta" then do
        let dj ← jLookup fields "delta"
        let d ← messageDeltaFromJson dj
        let uj ← jLookup fields "usage"
        let u ← messageDeltaUsageFromJson uj
        pure (.messageDelta d u)
      else if tag = "message_stop" then
        some .messageStop
      else none
    | _ => none
  | _ => none

/-- Typed decoding entry point: a failed decode surfaces as the
MalformedEvent error of the spec, never a panic and never a skip. -/
def decodeStreamEvent (j : Json) : Except AnthropicError MessagesStreamEvent :=
  match messagesStreamEventFromJson j with
  | some e => .ok e
  | none => .error .malformedEvent

/-- CompleteResponse from types.rs. -/
structure CompleteResponse where
  completion : String
  stop_reason : Option StopReason
deriving DecidableEq, Repr

/-- Modelled from the spec: the non-message completion stream is not under
the provided source tree (only the CompleteResponseStream type alias is).
Section 4.4 of the spec: each received fragment is concatenated onto an
accumulator, the caller receives one CompleteResponse per fragment with the
accumulated completion, and the stream closes immediately after a fragment
carrying a present StopReason, whichever of the three values it is. -/
def completeStreamRun (acc : String) :
    List CompleteResponse → List CompleteResponse
  | [] => []
  | r :: rest =>
    if r.stop_reason.isSome then [⟨acc ++ r.completion, r.stop_reason⟩]
    else ⟨acc ++ r.completion, r.stop_reason⟩ ::
      completeStreamRun (acc ++ r.completion) rest

/-- Modelled from the spec: the aggregator seeds the in-progress
MessagesResponse from the MessageStart message payload; the payload type
carries only role and content, so the remaining response fields start out
empty, absent or zero. -/
def seedResponse (m : Message) : MessagesResponse :=
  { id := "", type := "message", role := m.role, content := m.content,
    model := "", stop_reason := none, stop_sequence := none,
    usage := { input_tokens := 0, output_tokens := 0 } }

/-- Aggregator working state: the in-progress response plus the set of
content block indices already finalized by ContentBlockStop. -/
structure AggState where
  response : MessagesResponse
  closedIdx : List Nat
deriving DecidableEq, Repr

/-- Modelled from the spec: the state set of the stream aggregator, section
4.4 (AwaitingStart, Open, Closed; the Errored terminal state is the error
side of the Except result). -/
inductive AggMachine where
  | awaitingStart : AggMachine
  | opened : AggState → AggMachine
  | closed : MessagesResponse → AggMachine
deriving DecidableEq, Repr

/-- Stop reason currently recorded by a machine state. -/
def machineStopReason : AggMachine → Option StopReason
  | .awaitingStart => none
  | .opened st => st.response.stop_reason
  | .closed r => r.stop_reason

/-- Modelled from the spec: one transition of the aggregator state machine,
section 4.4.  ContentBlockStart requires the next contiguous index;
ContentBlockDelta requires an opened, not yet finalized text block;
MessageDelta refuses to overwrite an already present stop_reason with a
different value; any event after MessageStop, and any event other than
MessageStart while awaiting the start, is a protocol violation. -/
def aggStep : AggMachine → MessagesStreamEvent →
    Except AnthropicError AggMachine
  | .awaitingStart, .messageStart m =>
    .ok (.opened { response := seedResponse m, closedIdx := [] })
  | .awaitingStart, _ => .error .protocolViolation
  | .opened _, .messageStart _ => .error .protocolViolation
  | .opened st, .contentBlockStart i b =>
    if i = st.response.content.length then
      .ok (.opened { st with
        response := { st.response with
          content := st.response.content ++ [b] } })
    else .error .protocolViolation
  | .opened st, .contentBlockDelta i (.textDelta t) =>
    if i ∈ st.closedIdx then .error .protocolViolation
    else
      match st.response.content[i]? with
      | some (.text s) =>
        .ok (.opened { st with
          response := { st.response with
            content := st.response.content.set i (.text (s ++ t)) } })
      | _ => .error .protocolViolation
  | .opened st, .contentBlockStop i =>
    if i < st.response.content.length ∧ i ∉ st.closedIdx then
      .ok (.opened { st with closedIdx := i :: st.closedIdx })
    else .error .protocolViolation
  | .opened st, .messageDelta d u =>
    match d.stop_reason, st.response.stop_reason with
    | some v, some w =>
      if v = w then
        .ok (.opened { st with
          response := { st.response with
            stop_sequence := d.stop_sequence.elim
              st.response.stop_sequence some,
            usage := { st.response.usage with
              output_tokens := u.output_tokens } } })
      else .error .protocolViolation
    | some v, none =>
      .ok (.opened { st with
        response := { st.response with
          stop_reason := some v,
          stop_sequence := d.stop_sequence.elim
            st.response.stop_sequence some,
          usage := { st.response.usage with
            output_tokens := u.output_tokens } } })
    | none, _ =>
      .ok (.opened { st with
        response := { st.response with
          stop_sequence := d.stop_sequence.elim
            st.response.stop_sequence some,
          usage := { st.response.usage with
            output_tokens := u.output_tokens } } })
  | .opened st, .messageStop => .ok (.closed st.response)
  | .closed _, _ => .error .protocolViolation

/-- Fold of the aggregator over a decoded event sequence. -/
def aggFold : AggMachine → List MessagesStreamEvent →
    Except AnthropicError AggMachine
  | m, [] => .ok m
  | m, e :: rest =>
    match aggStep m e with
    | .ok m2 => aggFold m2 rest
    | .error err => .error err

/-- Modelled from the spec: full aggregator run; only a sequence that
reaches the Closed state yields the final assembled response, a premature
end of the event sequence is a truncation error. -/
def aggRun (es : List MessagesStreamEvent) :
    Except AnthropicError MessagesResponse :=
  match aggFold .awaitingStart es with
  | .ok (.closed r) => .ok r
  | .ok _ => .error .truncated
  | .error e => .error e

/-- Number of ContentBlockStart events of a sequence, following the claim
wording for the expected block count. -/
def countStarts : List MessagesStreamEvent → Nat
  | [] => 0
  | .contentBlockStart _ _ :: rest => countStarts rest + 1
  | _ :: rest => countStarts rest

/-- Concatenation, in arrival order, of the TextDelta fragments delivered
for one index, following the claim wording. -/
def deltaText : List MessagesStreamEvent → Nat → String
  | [], _ => ""
  | .contentBlockDelta j (.textDelta t) :: rest, i =>
    (if j = i then t else "") ++ deltaText rest i
  | _ :: rest, i => deltaText rest i

/-- Expected final content according to the claim wording: block by block
in index order, each block the concatenation of the TextDelta fragments
delivered for that index. -/
def specContent (es : List MessagesStreamEvent) : List ContentBlock :=
  (List.range (countStarts es)).map fun i => .text (deltaText es i)

theorem role_roundtrip (r : Role) : roleFromJson (roleToJson r) = some r := by
  cases r <;> rfl

theorem stopReason_roundtrip (s : StopReason) :
    stopReasonFromJson (stopReasonToJson s) = some s := by
  cases s <;> rfl

theorem contentBlock_roundtrip (b : ContentBlock) :
    contentBlockFromJson (contentBlockToJson b) = some b := by
  cases b <;> rfl

theorem contentBlockList_roundtrip (bs : List ContentBlock) :
    contentBlockListFromJson (bs.map contentBlockToJson) = some bs := by
  induction bs with
  | nil => rfl
  | cons b rest ih =>
    simp [contentBlockListFromJson, contentBlock_roundtrip, ih]

theorem contentBlocks_roundtrip (bs : List ContentBlock) :
    contentBlocksFromJson (contentBlocksToJson bs) = some bs := by
  simp [contentBlocksFromJson, contentBlocksToJson, contentBlockList_roundtrip]

theorem optStopReason_roundtrip (o : Option StopReason) :
    optStopReasonFromJson (some (optStopReasonToJson o)) = some o := by
  cases o with
  | none => rfl
  | some s => cases s <;> rfl

theorem optString_roundtrip (o : Option String) :
    optStringFromJson (some (optStringToJson o)) = some o := by
  cases o <;> rfl

theorem usage_roundtrip (u : Usage) : usageFromJson (usageToJson u) = some u := by
  rfl

/-- Claim C1: serializing any MessagesResponse to JSON and deserializing the
result yields the original value field-for-field; in particular absent
stop_reason and stop_sequence survive the round trip as absent. -/
theorem messagesResponse_roundtrip (r : MessagesResponse) :
    messagesResponseFromJson (messagesResponseToJson r) = some r := by
  simp [messagesResponseToJson, messagesResponseFromJson, jLookup,
        role_roundtrip, contentBlocks_roundtrip, optStopReason_roundtrip,
        optString_roundtrip, usage_roundtrip]

theorem jLookup_append (a b : List (String × Json)) (k : String) :
    jLookup (a ++ b) k =
      match jLookup a k with
      | some v => some v
      | none => jLookup b k := by
  induction a with
  | nil => rfl
  | cons p rest ih =>
    obtain ⟨k1, v1⟩ := p
    by_cases h : k1 = k <;> simp [jLookup, h, ih]

/-- Tag field of a serialized internally tagged value. -/
def typeTagOf (j : Json) : Option Json :=
  match j with
  | .obj fields => jLookup fields "type"
  | _ => none

/-- Claim C7: every enumeration serializes as its lower-case snake-form
tag: the two Role values, the three StopReason values, and the type tags of
every ContentBlock and MessagesStreamEvent variant. -/
theorem enums_serialize_snake_case :
    roleToJson .user = .str "user"
    ∧ roleToJson .assistant = .str "assistant"
    ∧ stopReasonToJson .endTurn = .str "end_turn"
    ∧ stopReasonToJson .maxTokens = .str "max_tokens"
    ∧ stopReasonToJson .stopSequence = .str "stop_sequence"
    ∧ (∀ t, typeTagOf (contentBlockToJson (.text t)) = some (.str "text"))
    ∧ (∀ s m d, typeTagOf (contentBlockToJson (.image s m d)) =
        some (.str "image"))
    ∧ (∀ m, typeTagOf (messagesStreamEventToJson (.messageStart m)) =
        some (.str "message_start"))
    ∧ (∀ i b, typeTagOf (messagesStreamEventToJson (.contentBlockStart i b)) =
        some (.str "content_block_start"))
    ∧ (∀ i d, typeTagOf (messagesStreamEventToJson (.contentBlockDelta i d)) =
        some (.str "content_block_delta"))
    ∧ (∀ i, typeTagOf (messagesStreamEventToJson (.contentBlockStop i)) =
        some (.str "content_block_stop"))
    ∧ (∀ d u, typeTagOf (messagesStreamEventToJson (.messageDelta d u)) =
        some (.str "message_delta"))
    ∧ typeTagOf (messagesStreamEventToJson .messageStop) =
        some (.str "message_stop") := by
  refine ⟨rfl, rfl, rfl, rfl, rfl, ?_, ?_, ?_, ?_, ?_, ?_, ?_, rfl⟩ <;>
    intros <;> rfl

/-- Claim C8: the derived default value of Role is User, never Assistant. -/
theorem role_default_is_user :
    roleDefault = Role.user ∧ roleDefault ≠ Role.assistant := by
  exact ⟨rfl, by decide⟩

/-- Claim C9: deserializing a Message requires both the role key and the
content key; a missing role key fails instead of applying the Rust Default
of Role, a missing content key fails too, and an object carrying both keys
with well-typed values decodes successfully. -/
theorem message_requires_role_and_content :
    (∀ fields, jLookup fields "role" = none →
      messageFromJson (.obj fields) = none)
    ∧ (∀ fields, jLookup fields "content" = none →
      messageFromJson (.obj fields) = none)
    ∧ (∀ r cbs, messageFromJson
        (.obj [("role", roleToJson r), ("content", contentBlocksToJson cbs)]) =
        some { role := r, content := cbs }) := by
  refine ⟨?_, ?_, ?_⟩
  · intro fields h
    simp [messageFromJson, h]
  · intro fields h
    cases hr : jLookup fields "role" with
    | none => simp [messageFromJson, hr]
    | some rj =>
      cases hrr : roleFromJson rj with
      | none => simp [messageFromJson, hr, hrr]
      | some r => simp [messageFromJson, hr, hrr, h]
  · intro r cbs
    simp [messageFromJson, jLookup, role_roundtrip, contentBlocks_roundtrip]

theorem message_requires_role_and_content_witness :
    messageFromJson (.obj []) = none :=
  message_requires_role_and_content.1 [] rfl

/-- Claim C10 (builders infallible): build always succeeds, for any builder
state, and an entirely unset builder produces the request whose fields are
the declared defaults: empty prompt or message list, DEFAULT_MODEL, zero
max tokens, empty or absent stop sequences, stream false, and absent
temperature, top_p and top_k. -/
theorem builders_never_fail :
    (∀ b : CompleteRequestBuilder, ∃ r, b.build = .ok r)
    ∧ (∀ b : MessagesRequestBuilder, ∃ r, b.build = .ok r)
    ∧ CompleteRequestBuilder.build {} =
        .ok { prompt := "", model := DEFAULT_MODEL, max_tokens_to_sample := 0,
              stop_sequences := none, stream := false }
    ∧ MessagesRequestBuilder.build {} =
        .ok { messages := [], system := "", model := DEFAULT_MODEL,
              max_tokens := 0, stop_sequences := [], stream := false,
              temperature := none, top_p := none, top_k := none } := by
  exact ⟨fun b => ⟨_, rfl⟩, fun b => ⟨_, rfl⟩, rfl, rfl⟩

/-- Claim C3 counterexample: CompleteRequest does not omit its optional
stop_sequences field; with the field absent, serialization still emits the
stop_sequences key (with a null value), because the source declares no
skip_serializing_if attribute on it. -/
theorem completeRequest_emits_absent_stop_sequences :
    CompleteRequest.stop_sequences
      { prompt := "", model := "m", max_tokens_to_sample := 0,
        stop_sequences := none, stream := false } = none
    ∧ hasKey (completeRequestToJson
      { prompt := "", model := "m", max_tokens_to_sample := 0,
        stop_sequences := none, stream := false }) "stop_sequences" = true := by
  exact ⟨rfl, rfl⟩

/-- Claim C3 as amended: for MessagesRequest every optional field with no
meaningful value is omitted from the serialized output (empty system
prompt, empty stop-sequences list, absent temperature, top_p and top_k
produce no key), while CompleteRequest always emits its stop_sequences
key, null when the field is absent. -/
theorem request_optional_field_omission :
    (∀ r : MessagesRequest, r.system = "" →
      hasKey (messagesRequestToJson r) "system" = false)
    ∧ (∀ r : MessagesRequest, r.stop_sequences = [] →
      hasKey (messagesRequestToJson r) "stop_sequences" = false)
    ∧ (∀ r : MessagesRequest, r.temperature = none →
      hasKey (messagesRequestToJson r) "temperature" = false)
    ∧ (∀ r : MessagesRequest, r.top_p = none →
      hasKey (messagesRequestToJson r) "top_p" = false)
    ∧ (∀ r : MessagesRequest, r.top_k = none →
      hasKey (messagesRequestToJson r) "top_k" = false)
    ∧ (∀ r : CompleteRequest,
      hasKey (completeRequestToJson r) "stop_sequences" = true) := by
  refine ⟨?_, ?_, ?_, ?_, ?_, ?_⟩
  · intro r h
    obtain ⟨msgs, sys, mo, mx, ss, strm, te, tp, tk⟩ := r
    cases h
    rcases te with _ | t <;> rcases tp with _ | p <;> rcases tk with _ | k <;>
      rcases ss with _ | ⟨s0, ss0⟩ <;>
      simp [messagesRequestToJson, hasKey, jLookup_append, jLookup]
  · intro r h
    obtain ⟨msgs, sys, mo, mx, ss, strm, te, tp, tk⟩ := r
    cases h
    rcases te with _ | t <;> rcases tp with _ | p <;> rcases tk with _ | k <;>
      by_cases hsys : sys.isEmpty = true <;>
      simp [messagesRequestToJson, hasKey, jLookup_append, jLookup, hsys]
  · intro r h
    obtain ⟨msgs, sys, mo, mx, ss, strm, te, tp, tk⟩ := r
    cases h
    rcases tp with _ | p <;> rcases tk with _ | k <;>
      rcases ss with _ | ⟨s0, ss0⟩ <;>
      by_cases hsys : sys.isEmpty = true <;>
      simp [messagesRequestToJson, hasKey, jLookup_append, jLookup, hsys]
  · intro r h
    obtain ⟨msgs, sys, mo, mx, ss, strm, te, tp, tk⟩ := r
    cases h
    rcases te with _ | t <;> rcases tk with _ | k <;>
      rcases ss with _ | ⟨s0, ss0⟩ <;>
      by_cases hsys : sys.isEmpty = true <;>
      simp [messagesRequestToJson, hasKey, jLookup_append, jLookup, hsys]
  · intro r h
    obtain ⟨msgs, sys, mo, mx, ss, strm, te, tp, tk⟩ := r
    cases h
    rcases te with _ | t <;> rcases tp with _ | p <;>
      rcases ss with _ | ⟨s0, ss0⟩ <;>
      by_cases hsys : sys.isEmpty = true <;>
      simp [messagesRequestToJson, hasKey, jLookup_append, jLookup, hsys]
  · intro r
    obtain ⟨pr, mo, mx, ss, strm⟩ := r
    simp [completeRequestToJson, hasKey, jLookup]

theorem request_optional_field_omission_witness :
    hasKey (messagesRequestToJson
      { messages := [], system := "", model := "m", max_tokens := 5,
        stop_sequences := [], stream := false, temperature := none,
        top_p := none, top_k := none }) "system" = false :=
  request_optional_field_omission.1 _ rfl

theorem contentBlockDelta_roundtrip (d : ContentBlockDelta) :
    contentBlockDeltaFromJson (contentBlockDeltaToJson d) = some d := by
  cases d with
  | textDelta t => rfl

theorem messageDeltaUsage_roundtrip (u : MessageDeltaUsage) :
    messageDeltaUsageFromJson (messageDeltaUsageToJson u) = some u := by
  rfl

theorem messageDelta_roundtrip (d : MessageDelta) :
    messageDeltaFromJson (messageDeltaToJson d) = some d := by
  simp [messageDeltaToJson, messageDeltaFromJson, jLookup,
        optStopReason_roundtrip, optString_roundtrip]

theorem message_roundtrip (m : Message) :
    messageFromJson (messageToJson m) = some m := by
  simp [messageToJson, messageFromJson, jLookup, role_roundtrip,
        contentBlocks_roundtrip]

theorem messagesStreamEvent_roundtrip (e : MessagesStreamEvent) :
    messagesStreamEventFromJson (messagesStreamEventToJson e) = some e := by
  cases e with
  | messageStart m =>
    simp [messagesStreamEventToJson, messagesStreamEventFromJson, jLookup,
          message_roundtrip]
  | contentBlockStart i b =>
    simp [messagesStreamEventToJson, messagesStreamEventFromJson, jLookup,
          contentBlock_roundtrip]
  | contentBlockDelta i d =>
    simp [messagesStreamEventToJson, messagesStreamEventFromJson, jLookup,
          contentBlockDelta_roundtrip]
  | contentBlockStop i =>
    simp [messagesStreamEventToJson, messagesStreamEventFromJson, jLookup]
  | messageDelta d u =>
    simp [messagesStreamEventToJson, messagesStreamEventFromJson, jLookup,
          messageDelta_roundtrip, messageDeltaUsage_roundtrip]
  | messageStop =>
    rfl

/-- Claim C2: decoding a JSON object as a MessagesStreamEvent yields a
typed MalformedEvent error whenever the type discriminator is unknown, and
whenever a known discriminator lacks a required field of its variant; and
every canonical object with a known discriminator and all required fields
decodes successfully, as shown by the full serialization round trip. -/
theorem streamEvent_decode_total :
    (∀ fields tag, jLookup fields "type" = some (.str tag) →
      tag ∉ knownEventTags →
      decodeStreamEvent (.obj fields) = .error .malformedEvent)
    ∧ (∀ fields, jLookup fields "type" = none →
      decodeStreamEvent (.obj fields) = .error .malformedEvent)
    ∧ (∀ fields, jLookup fields "type" = some (.str "message_start") →
      jLookup fields "message" = none →
      decodeStreamEvent (.obj fields) = .error .malformedEvent)
    ∧ (∀ fields, jLookup fields "type" = some (.str "content_block_start") →
      jLookup fields "index" = none ∨ jLookup fields "content_block" = none →
      decodeStreamEvent (.obj fields) = .error .malformedEvent)
    ∧ (∀ fields, jLookup fields "type" = some (.str "content_block_delta") →
      jLookup fields "index" = none ∨ jLookup fields "delta" = none →
      decodeStreamEvent (.obj fields) = .error .malformedEvent)
    ∧ (∀ fields, jLookup fields "type" = some (.str "content_block_stop") →
      jLookup fields "index" = none →
      decodeStreamEvent (.obj fields) = .error .malformedEvent)
    ∧ (∀ fields, jLookup fields "type" = some (.str "message_delta") →
      jLookup fields "delta" = none ∨ jLookup fields "usage" = none →
      decodeStreamEvent (.obj fields) = .error .malformedEvent)
    ∧ (∀ e, decodeStreamEvent (messagesStreamEventToJson e) = .ok e) := by
  refine ⟨?_, ?_, ?_, ?_, ?_, ?_, ?_, ?_⟩
  · intro fields tag htag hmem
    simp [knownEventTags] at hmem
    obtain ⟨h1, h2, h3, h4, h5, h6⟩ := hmem
    simp [decodeStreamEvent, messagesStreamEventFromJson, htag,
          h1, h2, h3, h4, h5, h6]
  · intro fields htag
    simp [decodeStreamEvent, messagesStreamEventFromJson, htag]
  · intro fields htag hmsg
    simp [decodeStreamEvent, messagesStreamEventFromJson, htag, hmsg]
  · intro fields htag hmiss
    rcases hmiss with hidx | hblk
    · simp [decodeStreamEvent, messagesStreamEventFromJson, htag, hidx]
    · cases hidx : jLookup fields "index" with
      | none =>
        simp [decodeStreamEvent, messagesStreamEventFromJson, htag, hidx]
      | some ij =>
        cases ij <;>
          simp [decodeStreamEvent, messagesStreamEventFromJson, htag,
                hidx, hblk]
  · intro fields htag hmiss
    rcases hmiss with hidx | hdel
    · simp [decodeStreamEvent, messagesStreamEventFromJson, htag, hidx]
    · cases hidx : jLookup fields "index" with
      | none =>
        simp [decodeStreamEvent, messagesStreamEventFromJson, htag, hidx]
      | some ij =>
        cases ij <;>
          simp [decodeStreamEvent, messagesStreamEventFromJson, htag,
                hidx, hdel]
  · intro fields htag hidx
    simp [decodeStreamEvent, messagesStreamEventFromJson, htag, hidx]
  · intro fields htag hmiss
    rcases hmiss with hdel | husg
    · simp [decodeStreamEvent, messagesStreamEventFromJson, htag, hdel]
    · cases hdel : jLookup fields "delta" with
      | none =>
        simp [decodeStreamEvent, messagesStreamEventFromJson, htag, hdel]
      | some dj =>
        cases hd : messageDeltaFromJson dj with
        | none =>
          simp [decodeStreamEvent, messagesStreamEventFromJson, htag,
                hdel, hd]
        | some d =>
          simp [decodeStreamEvent, messagesStreamEventFromJson, htag,
                hdel, hd, husg]
  · intro e
    simp [decodeStreamEvent, messagesStreamEvent_roundtrip]

theorem streamEvent_decode_total_witness :
    decodeStreamEvent (.obj [("type", .str "bogus")]) =
      .error .malformedEvent :=
  streamEvent_decode_total.1 [("type", .str "bogus")] "bogus" rfl
    (by simp [knownEventTags])

/-- Claim C4: in the non-message completion stream, an item carrying any
present StopReason is the last item: whatever decomposition of the output
places an item with a present stop reason somewhere, nothing follows it. -/
theorem completeStream_closes_after_stop :
    ∀ frags acc pre r post,
      completeStreamRun acc frags = pre ++ r :: post →
      r.stop_reason.isSome = true → post = [] := by
  intro frags
  induction frags with
  | nil =>
    intro acc pre r post h _
    simp [completeStreamRun] at h
  | cons f rest ih =>
    intro acc pre r post h hsome
    by_cases hf : f.stop_reason.isSome = true
    · rw [completeStreamRun, if_pos hf] at h
      rcases pre with _ | ⟨p0, pre0⟩
      · simp at h
        exact h.2.symm ▸ rfl
      · simp at h
    · rw [completeStreamRun, if_neg hf] at h
      rcases pre with _ | ⟨p0, pre0⟩
      · simp at h
        rw [← h.1] at hsome
        simp [Option.isSome_iff_exists] at hsome hf
        obtain ⟨v, hv⟩ := hsome
        exact absurd hv (hf v)
      · simp at h
        exact ih _ pre0 r post h.2 hsome

theorem completeStream_closes_after_stop_witness :
    completeStreamRun "" [⟨"Hello", none⟩, ⟨" world", some .endTurn⟩] =
      [⟨"Hello", none⟩] ++ ⟨"Hello world", some .endTurn⟩ :: []
    ∧ (CompleteResponse.stop_reason
        ⟨"Hello world", some .endTurn⟩).isSome = true
    ∧ ([] : List CompleteResponse) = [] := by
  refine ⟨rfl, rfl, completeStream_closes_after_stop
    [⟨"Hello", none⟩, ⟨" world", some .endTurn⟩] ""
    [⟨"Hello", none⟩] ⟨"Hello world", some .endTurn⟩ [] rfl rfl⟩

theorem aggStep_stopReason_mono {m : AggMachine} {e : MessagesStreamEvent}
    {m' : AggMachine} {v : StopReason} (h : aggStep m e = .ok m')
    (hv : machineStopReason m = some v) : machineStopReason m' = some v := by
  cases m with
  | awaitingStart => simp [machineStopReason] at hv
  | closed r => simp [aggStep] at h
  | opened st =>
    simp only [machineStopReason] at hv
    cases e with
    | messageStart m2 => simp [aggStep] at h
    | contentBlockStart i b =>
      simp only [aggStep] at h
      split at h
      · simp only [Except.ok.injEq] at h
        subst h
        simpa [machineStopReason] using hv
      · simp at h
    | contentBlockDelta i d =>
      cases d with
      | textDelta t =>
        simp only [aggStep] at h
        split at h
        · simp at h
        · split at h
          · simp only [Except.ok.injEq] at h
            subst h
            simpa [machineStopReason] using hv
          · simp at h
    | contentBlockStop i =>
      simp only [aggStep] at h
      split at h
      · simp only [Except.ok.injEq] at h
        subst h
        simpa [machineStopReason] using hv
      · simp at h
    | messageDelta d u =>
      cases hd : d.stop_reason with
      | none =>
        simp only [aggStep, hd, hv] at h
        simp only [Except.ok.injEq] at h
        subst h
        simp [machineStopReason, hv]
      | some w =>
        by_cases hw : w = v
        · subst hw
          simp only [aggStep, hd, hv] at h
          simp only [if_true] at h
          simp only [Except.ok.injEq] at h
          subst h
          simp [machineStopReason, hv]
        · simp [aggStep, hd, hv, hw] at h
    | messageStop =>
      simp only [aggStep, Except.ok.injEq] at h
      subst h
      simpa [machineStopReason] using hv

theorem aggStep_stopReason_new {m : AggMachine} {e : MessagesStreamEvent}
    {m' : AggMachine} {v : StopReason} (h : aggStep m e = .ok m')
    (hv : machineStopReason m' = some v)
    (hold : machineStopReason m ≠ some v) :
    ∃ d u, e = .messageDelta d u ∧ d.stop_reason = some v := by
  cases m with
  | awaitingStart =>
    cases e with
    | messageStart m2 =>
      simp only [aggStep, Except.ok.injEq] at h
      subst h
      simp [machineStopReason, seedResponse] at hv
    | contentBlockStart i b => simp [aggStep] at h
    | contentBlockDelta i d => simp [aggStep] at h
    | contentBlockStop i => simp [aggStep] at h
    | messageDelta d u => simp [aggStep] at h
    | messageStop => simp [aggStep] at h
  | closed r => simp [aggStep] at h
  | opened st =>
    simp only [machineStopReason] at hold
    cases e with
    | messageStart m2 => simp [aggStep] at h
    | contentBlockStart i b =>
      simp only [aggStep] at h
      split at h
      · simp only [Except.ok.injEq] at h
        subst h
        simp [machineStopReason] at hv
        exact absurd hv hold
      · simp at h
    | contentBlockDelta i d =>
      cases d with
      | textDelta t =>
        simp only [aggStep] at h
        split at h
        · simp at h
        · split at h
          · simp only [Except.ok.injEq] at h
            subst h
            simp [machineStopReason] at hv
            exact absurd hv hold
          · simp at h
    | contentBlockStop i =>
      simp only [aggStep] at h
      split at h
      · simp only [Except.ok.injEq] at h
        subst h
        simp [machineStopReason] at hv
        exact absurd hv hold
      · simp at h
    | messageDelta d u =>
      cases hd : d.stop_reason with
      | none =>
        cases hsr : st.response.stop_reason with
        | none =>
          simp only [aggStep, hd, hsr, Except.ok.injEq] at h
          subst h
          simp [machineStopReason, hsr] at hv
        | some w =>
          simp only [aggStep, hd, hsr, Except.ok.injEq] at h
          subst h
          simp [machineStopReason, hsr] at hv
          exact absurd (hsr.trans (congrArg some hv)) hold
      | some w =>
        cases hsr : st.response.stop_reason with
        | none =>
          simp only [aggStep, hd, hsr, Except.ok.injEq] at h
          subst h
          simp [machineStopReason] at hv
          exact ⟨d, u, rfl, hd.trans (congrArg some hv)⟩
        | some w2 =>
          by_cases hw : w = w2
          · subst hw
            simp only [aggStep, hd, hsr] at h
            simp only [if_true] at h
            simp only [Except.ok.injEq] at h
            subst h
            simp [machineStopReason, hsr] at hv
            exact absurd (hsr.trans (congrArg some hv)) hold
          · simp [aggStep, hd, hsr, hw] at h
    | messageStop =>
      simp only [aggStep, Except.ok.injEq] at h
      subst h
      simp [machineStopReason] at hv
      exact absurd hv hold

theorem aggStep_messageDelta_sets {st : AggState} {d : MessageDelta}
    {u : MessageDeltaUsage} {m' : AggMachine} {v : StopReason}
    (h : aggStep (.opened st) (.messageDelta d u) = .ok m')
    (hd : d.stop_reason = some v) : machineStopReason m' = some v := by
  cases hsr : st.response.stop_reason with
  | none =>
    simp only [aggStep, hd, hsr, Except.ok.injEq] at h
    subst h
    simp [machineStopReason]
  | some w =>
    by_cases hw : v = w
    · subst hw
      simp only [aggStep, hd, hsr] at h
      simp only [if_true] at h
      simp only [Except.ok.injEq] at h
      subst h
      simp [machineStopReason, hsr]
    · simp [aggStep, hd, hsr, hw] at h

theorem aggFold_stopReason_source {es : List MessagesStreamEvent}
    {m m' : AggMachine} {v : StopReason} (h : aggFold m es = .ok m')
    (hv : machineStopReason m' = some v) :
    machineStopReason m = some v
    ∨ ∃ d u, MessagesStreamEvent.messageDelta d u ∈ es
        ∧ d.stop_reason = some v := by
  induction es generalizing m with
  | nil =>
    simp only [aggFold, Except.ok.injEq] at h
    subst h
    exact Or.inl hv
  | cons e rest ih =>
    simp only [aggFold] at h
    cases hs : aggStep m e with
    | error err => rw [hs] at h; simp at h
    | ok m1 =>
      rw [hs] at h
      rcases ih h with hm1 | ⟨d, u, hmem, hd⟩
      · by_cases hm : machineStopReason m = some v
        · exact Or.inl hm
        · obtain ⟨d, u, he, hd⟩ := aggStep_stopReason_new hs hm1 hm
          exact Or.inr ⟨d, u, by simp [he], hd⟩
      · exact Or.inr ⟨d, u, List.mem_cons_of_mem _ hmem, hd⟩

/-- Claim C5: stop_reason is monotone and single-source.  Once a machine
state records a present stop_reason, no accepted event changes it; an
accepted MessageDelta carrying a present stop_reason leaves that exact
value in the state; a MessageDelta whose present stop_reason conflicts with
the already recorded value is refused with ProtocolViolation; and a
successful run whose final response records a present stop_reason got that
exact value from some MessageDelta event of the sequence. -/
theorem stop_reason_set_once :
    (∀ m e m' v, aggStep m e = .ok m' → machineStopReason m = some v →
      machineStopReason m' = some v)
    ∧ (∀ st d u v w, st.response.stop_reason = some w →
      d.stop_reason = some v → v ≠ w →
      aggStep (.opened st) (.messageDelta d u) = .error .protocolViolation)
    ∧ (∀ st d u m' v,
      aggStep (.opened st) (.messageDelta d u) = .ok m' →
      d.stop_reason = some v → machineStopReason m' = some v)
    ∧ (∀ es r v, aggRun es = .ok r → r.stop_reason = some v →
      ∃ d u, MessagesStreamEvent.messageDelta d u ∈ es
        ∧ d.stop_reason = some v) := by
  refine ⟨?_, ?_, ?_, ?_⟩
  · intro m e m' v h hv
    exact aggStep_stopReason_mono h hv
  · intro st d u v w hsr hd hne
    simp [aggStep, hsr, hd, hne]
  · intro st d u m' v h hd
    exact aggStep_messageDelta_sets h hd
  · intro es r v hrun hv
    unfold aggRun at hrun
    cases hf : aggFold .awaitingStart es with
    | error err => rw [hf] at hrun; simp at hrun
    | ok m =>
      rw [hf] at hrun
      cases m with
      | awaitingStart => simp at hrun
      | opened st => simp at hrun
      | closed r2 =>
        simp only [Except.ok.injEq] at hrun
        subst hrun
        rcases aggFold_stopReason_source hf
            (by simpa [machineStopReason] using hv) with hcontra | hex
        · simp [machineStopReason] at hcontra
        · exact hex

theorem stop_reason_set_once_witness :
    aggStep
      (.opened ⟨⟨"", "message", .assistant, [], "", some .endTurn, none,
        ⟨0, 0⟩⟩, []⟩)
      (.messageDelta ⟨some .maxTokens, none⟩ ⟨7⟩) =
      .error .protocolViolation :=
  stop_reason_set_once.2.1 _ _ _ .maxTokens .endTurn rfl rfl (by decide)

theorem aggFold_closed {r : MessagesResponse} {es : List MessagesStreamEvent}
    {m : AggMachine} (h : aggFold (.closed r) es = .ok m) :
    es = [] ∧ m = .closed r := by
  cases es with
  | nil =>
    simp only [aggFold, Except.ok.injEq] at h
    exact ⟨rfl, h.symm⟩
  | cons e rest => simp [aggFold, aggStep] at h

theorem aggStep_messageDelta_content {st : AggState} {d : MessageDelta}
    {u : MessageDeltaUsage} {m' : AggMachine}
    (h : aggStep (.opened st) (.messageDelta d u) = .ok m') :
    ∃ st2, m' = .opened st2
      ∧ st2.response.content = st.response.content := by
  cases hd : d.stop_reason with
  | none =>
    simp only [aggStep, hd, Except.ok.injEq] at h
    exact ⟨_, h.symm, rfl⟩
  | some v =>
    cases hsr : st.response.stop_reason with
    | none =>
      simp only [aggStep, hd, hsr, Except.ok.injEq] at h
      exact ⟨_, h.symm, rfl⟩
    | some w =>
      by_cases hw : v = w
      · subst hw
        simp only [aggStep, hd, hsr] at h
        simp only [if_true] at h
        simp only [Except.ok.injEq] at h
        exact ⟨_, h.symm, rfl⟩
      · simp [aggStep, hd, hsr, hw] at h

theorem aggFold_content :
    ∀ (es : List MessagesStreamEvent) (st : AggState) (n : Nat)
      (d : Nat → String) (resp : MessagesResponse),
    st.response.content.length = n →
    (∀ i, i < n → st.response.content[i]? = some (.text (d i))) →
    (∀ i cb, MessagesStreamEvent.contentBlockStart i cb ∈ es →
      cb = ContentBlock.text "") →
    aggFold (.opened st) es = .ok (.closed resp) →
    resp.content.length = n + countStarts es
    ∧ ∀ i, i < n + countStarts es →
        resp.content[i]? =
          some (.text ((if i < n then d i else "") ++ deltaText es i)) := by
  intro es
  induction es with
  | nil =>
    intro st n d resp hlen hget hstarts hfold
    simp [aggFold] at hfold
  | cons e rest ih =>
    intro st n d resp hlen hget hstarts hfold
    simp only [aggFold] at hfold
    cases e with
    | messageStart m2 => simp [aggStep] at hfold
    | contentBlockStart k cb =>
      have hcb := hstarts k cb (List.mem_cons_self _ _)
      subst hcb
      by_cases hk : k = st.response.content.length
      · simp only [aggStep, hk, if_true] at hfold
        have hres := ih _ (n + 1) (fun i => if i < n then d i else "") resp
          (by simp [hlen])
          (by
            intro i hi
            rw [List.getElem?_append]
            by_cases hin : i < n
            · simp [hlen, hin, hget i hin]
            · have hieq : i = n := by omega
              subst hieq
              simp [hlen])
          (fun i cb hmem => hstarts i cb (List.mem_cons_of_mem _ hmem))
          hfold
        constructor
        · rw [hres.1]
          simp [countStarts]
          omega
        · intro i hi
          have hi2 : i < n + 1 + countStarts rest := by
            simp [countStarts] at hi
            omega
          rw [hres.2 i hi2]
          have hstr : (if i < n + 1 then (if i < n then d i else "") else "")
              = (if i < n then d i else "") := by
            split_ifs with h1 h2 <;> first | rfl | omega
          rw [hstr]
          simp [deltaText]
      · simp [aggStep, hk] at hfold
    | contentBlockDelta k cbd =>
      cases cbd with
      | textDelta t =>
        by_cases hkc : k ∈ st.closedIdx
        · simp [aggStep, hkc] at hfold
        · simp only [aggStep, if_neg hkc] at hfold
          cases hck : st.response.content[k]? with
          | none => rw [hck] at hfold; simp at hfold
          | some b =>
            cases b with
            | image s1 s2 s3 => rw [hck] at hfold; simp at hfold
            | text s =>
              rw [hck] at hfold
              simp only [] at hfold
              have hkn : k < n := by
                by_contra hkn
                rw [List.getElem?_eq_none (by omega)] at hck
                simp at hck
              have hsd : s = d k := by
                have h2 := hget k hkn
                rw [hck] at h2
                simp at h2
                exact h2
              subst hsd
              have hres := ih _ n (fun i => if i = k then d k ++ t else d i)
                resp
                (by simp [hlen])
                (by
                  intro i hi
                  by_cases hik : i = k
                  · subst hik
                    rw [List.getElem?_set_eq_of_lt _ (by omega)]
                    simp
                  · rw [List.getElem?_set_ne (fun hh => hik hh.symm)]
                    simp [hget i hi, hik])
                (fun i cb hmem => hstarts i cb (List.mem_cons_of_mem _ hmem))
                hfold
              constructor
              · rw [hres.1]
                simp [countStarts]
              · intro i hi
                have hi2 : i < n + countStarts rest := by
                  simp [countStarts] at hi
                  exact hi
                rw [hres.2 i hi2]
                simp only [deltaText]
                congr 1
                by_cases h1 : i < n
                · by_cases h2 : i = k
                  · subst h2
                    simp [h1, String.append_assoc]
                  · have h2' : ¬ (k = i) := fun hh => h2 hh.symm
                    simp [h1, h2, h2', String.empty_append]
                · have hki : ¬ (k = i) := by omega
                  simp [h1, hki, String.empty_append]
    | contentBlockStop k =>
      by_cases hcond : k < st.response.content.length ∧ k ∉ st.closedIdx
      · simp only [aggStep] at hfold
        rw [if_pos hcond] at hfold
        have hres := ih { response := st.response, closedIdx := k :: st.closedIdx }
          n d resp hlen hget
          (fun i cb hmem => hstarts i cb (List.mem_cons_of_mem _ hmem))
          hfold
        constructor
        · rw [hres.1]
          simp [countStarts]
        · intro i hi
          have hi2 : i < n + countStarts rest := by
            simp [countStarts] at hi
            exact hi
          rw [hres.2 i hi2]
          simp [deltaText]
      · simp [aggStep, hcond] at hfold
    | messageDelta dd uu =>
      cases hs : aggStep (.opened st) (.messageDelta dd uu) with
      | error err => rw [hs] at hfold; simp at hfold
      | ok m1 =>
        rw [hs] at hfold
        obtain ⟨st2, hm1, hcont⟩ := aggStep_messageDelta_content hs
        subst hm1
        have hres := ih _ n d resp (by rw [hcont]; exact hlen)
          (by intro i hi; rw [hcont]; exact hget i hi)
          (fun i cb hmem => hstarts i cb (List.mem_cons_of_mem _ hmem))
          hfold
        constructor
        · rw [hres.1]
          simp [countStarts]
        · intro i hi
          have hi2 : i < n + countStarts rest := by
            simp [countStarts] at hi
            exact hi
          rw [hres.2 i hi2]
          simp [deltaText]
    | messageStop =>
      simp only [aggStep] at hfold
      obtain ⟨hrest, hm⟩ := aggFold_closed hfold
      subst hrest
      simp only [AggMachine.closed.injEq] at hm
      subst hm
      constructor
      · simp [countStarts, hlen]
      · intro i hi
        simp only [countStarts, deltaText] at hi ⊢
        have hin : i < n := by omega
        simp [hin, hget i hin, String.append_empty]

theorem specContent_getElem {es : List MessagesStreamEvent} {i : Nat}
    (hi : i < countStarts es) :
    (specContent es)[i]? = some (.text (deltaText es i)) := by
  unfold specContent
  rw [List.getElem?_eq_getElem (by simpa using hi)]
  simp

theorem specContent_length (es : List MessagesStreamEvent) :
    (specContent es).length = countStarts es := by
  simp [specContent]

/-- Claim C6: for every event sequence the aggregator accepts in full
(which forces it to begin with MessageStart and end with MessageStop),
provided the MessageStart payload opens with empty content and every
ContentBlockStart inserts an empty text placeholder, the content of the
final assembled response equals, block by block in index order, the
concatenation in arrival order of the TextDelta fragments delivered for
each index. -/
theorem aggregator_assembles_concatenation :
    ∀ es r, aggRun es = .ok r →
    (∀ m, MessagesStreamEvent.messageStart m ∈ es → m.content = []) →
    (∀ i cb, MessagesStreamEvent.contentBlockStart i cb ∈ es →
      cb = ContentBlock.text "") →
    r.content = specContent es := by
  intro es r hrun hms hcs
  unfold aggRun at hrun
  cases hf : aggFold .awaitingStart es with
  | error err => rw [hf] at hrun; simp at hrun
  | ok m =>
    rw [hf] at hrun
    cases m with
    | awaitingStart => simp at hrun
    | opened st => simp at hrun
    | closed r2 =>
      simp only [Except.ok.injEq] at hrun
      subst hrun
      cases es with
      | nil => simp [aggFold] at hf
      | cons e rest =>
        simp only [aggFold] at hf
        cases e with
        | contentBlockStart i b => simp [aggStep] at hf
        | contentBlockDelta i d => simp [aggStep] at hf
        | contentBlockStop i => simp [aggStep] at hf
        | messageDelta d u => simp [aggStep] at hf
        | messageStop => simp [aggStep] at hf
        | messageStart m0 =>
          have hm0 : m0.content = [] := hms m0 (List.mem_cons_self _ _)
          have main := aggFold_content rest
            { response := seedResponse m0, closedIdx := [] } 0 (fun _ => "")
            r2
            (by simp [seedResponse, hm0])
            (by intro i hi; omega)
            (fun i cb hmem => hcs i cb (List.mem_cons_of_mem _ hmem))
            hf
          apply List.ext_getElem?
          intro i
          by_cases hi : i < countStarts rest
          · rw [main.2 i (by omega)]
            rw [specContent_getElem (by simpa [countStarts] using hi)]
            simp [deltaText, String.empty_append]
          · have hlen := main.1
            rw [List.getElem?_eq_none (by omega)]
            rw [List.getElem?_eq_none
              (by rw [specContent_length]; simp only [countStarts]; omega)]

theorem aggregator_assembles_concatenation_witness :
    aggRun
      [.messageStart ⟨.assistant, []⟩,
       .contentBlockStart 0 (.text ""),
       .contentBlockDelta 0 (.textDelta "Hi"),
       .contentBlockDelta 0 (.textDelta "!"),
       .contentBlockStop 0,
       .messageDelta ⟨some .endTurn, none⟩ ⟨3⟩,
       .messageStop] =
      .ok ⟨"", "message", .assistant, [.text "Hi!"], "", some .endTurn,
        none, ⟨0, 3⟩⟩
    ∧ MessagesResponse.content
        ⟨"", "message", .assistant, [.text "Hi!"], "", some .endTurn,
          none, ⟨0, 3⟩⟩ =
      specContent
        [.messageStart ⟨.assistant, []⟩,
         .contentBlockStart 0 (.text ""),
         .contentBlockDelta 0 (.textDelta "Hi"),
         .contentBlockDelta 0 (.textDelta "!"),
         .contentBlockStop 0,
         .messageDelta ⟨some .endTurn, none⟩ ⟨3⟩,
         .messageStop] := by
  refine ⟨rfl, aggregator_assembles_concatenation _ _ rfl
    ?_ ?_⟩
  · intro m hm
    simp at hm
    simp [hm]
  · intro i cb hm
    simp at hm
    exact hm.2

end Anthropic
